import Mathlib

/-!
Verification development for the reflective parameter-binding and
batch-execution engine of `src/main.py` (a Tkinter front-end around the
`biometeo` function library).  The engine's logic — `parse_value`,
`App.validate_headers`, the binding/execution loop of `App.process_csv`,
and `App.normalize_results` — is shallowly embedded below.

Modelling conventions:
* Python scalar values are `PyVal`: `None`, `bool`, `int`, `float`
  (modelled as an exact fraction in lowest terms, `Flt`; Python's binary
  rounding never matters for the properties below, which only compare
  values parsed from short decimal literals), `str`, plus the container
  shapes the result normalizer inspects: `list`/`tuple` (one constructor,
  the source treats them identically), `dict`, `pandas.Series` (as its
  name — for an unnamed Series, the textual form of the default integer
  label pandas gives its column — and its index→value pairs) and
  `pandas.DataFrame` (as a list of records).
* Exceptions become `Except String`; a caught-and-ignored exception
  becomes the fall-through the source's `except` branch performs.
* `pandas` behaviour is modelled from its documented semantics:
  `pd.concat` silently drops `None` entries (raising `ValueError` when all
  are `None`) and raises `TypeError` on other non-tabular entries;
  `pd.DataFrame` over a list whose first element is a mapping/Series
  requires every element to be mapping-like and aligns records on the
  union of their keys, absent keys filled with `NaN` (modelled `pynone`).
-/

/-- Euclid's algorithm with explicit fuel (so that it reduces
definitionally on concrete inputs). -/
def natGcdF : ℕ → ℕ → ℕ → ℕ
  | 0, _, b => b
  | _ + 1, 0, b => b
  | f + 1, a, b => natGcdF f (b % a) a

/-- Greatest common divisor. -/
def natGcd (a b : ℕ) : ℕ := natGcdF (a + b + 1) a b

/-- A Python float value, as an exact fraction in lowest terms.  Exact
fractions model equality of the float values the engine actually builds
(short decimal literals) without binary rounding. -/
structure Flt where
  num : Int
  den : ℕ
deriving DecidableEq

/-- The fraction `n / d` in lowest terms. -/
def normFlt (n : Int) (d : ℕ) : Flt :=
  let g := natGcd n.natAbs d
  if g = 0 then ⟨0, 0⟩ else ⟨n / (g : Int), d / g⟩

/-- Python values as the engine sees them.  Cells of an input table are the
scalar constructors; results of the target function may be any of them. -/
inductive PyVal where
  | pynone : PyVal
  | pybool : Bool → PyVal
  | pyint : Int → PyVal
  | pyfloat : Flt → PyVal
  | pystr : String → PyVal
  | pylist : List PyVal → PyVal
  | pydict : List (String × PyVal) → PyVal
  | pyseries : String → List (String × PyVal) → PyVal
  | pyframe : List (List (String × PyVal)) → PyVal

/-- A declared parameter type: the annotations `parse_value` distinguishes
(`int`, `float`, `bool`, `str`), or no/other annotation (`anone`). -/
inductive Ann where
  | anone | aint | afloat | abool | astr
deriving DecidableEq

/-- Python whitespace for `str.strip` (the ASCII whitespace characters). -/
def isPyWs (c : Char) : Bool :=
  c == ' ' || c == '\t' || c == '\n' || c == '\r' || c == '\x0b' || c == '\x0c'

/-- Strip leading and trailing whitespace from a character list. -/
def stripChars (cs : List Char) : List Char :=
  ((cs.dropWhile isPyWs).reverse.dropWhile isPyWs).reverse

/-- Python `str.strip()`. -/
def pyStrip (s : String) : String :=
  String.mk (stripChars s.data)

/-- Python `str.lower()` (ASCII case folding suffices here). -/
def pyLower (s : String) : String :=
  String.mk (s.data.map Char.toLower)

/-- Python `c in s` for a single character. -/
def hasChar (s : String) (c : Char) : Bool :=
  s.data.contains c

/-- Decimal digit run as Python's number lexer accepts it after the first
character: digits with single underscores standing between digits. -/
def okDigitTail : List Char → Bool
  | [] => true
  | ['_'] => false
  | '_' :: c :: rest => c.isDigit && okDigitTail rest
  | c :: rest => c.isDigit && okDigitTail rest

/-- A non-empty digit run, underscores allowed between digits
(Python `1_000` syntax). -/
def okDigitRun : List Char → Bool
  | [] => false
  | c :: rest => c.isDigit && okDigitTail rest

/-- Numeric value of a digit list. -/
def digitsVal (cs : List Char) : ℕ :=
  cs.foldl (fun a c => a * 10 + (c.toNat - '0'.toNat)) 0

/-- Digit characters of a run, underscores dropped. -/
def runDigits (cs : List Char) : List Char :=
  cs.filter (fun c => c != '_')

/-- Value of a digit run with underscores. -/
def runVal (cs : List Char) : ℕ :=
  digitsVal (runDigits cs)

/-- Python `int(s)`: surrounding whitespace ignored, one optional sign,
then a digit run.  (Non-decimal bases never arise here.) -/
def pyIntParse? (s : String) : Option Int :=
  let cs := stripChars s.data
  match cs with
  | '+' :: rest => if okDigitRun rest then some (Int.ofNat (runVal rest)) else none
  | '-' :: rest => if okDigitRun rest then some (-(Int.ofNat (runVal rest))) else none
  | _ => if okDigitRun cs then some (Int.ofNat (runVal cs)) else none

/-- Split a character list on every occurrence of a separator. -/
def splitOnChar (sep : Char) : List Char → List (List Char)
  | [] => [[]]
  | c :: rest =>
    match splitOnChar sep rest with
    | [] => [[c]]
    | h :: t => if c == sep then [] :: h :: t else (c :: h) :: t

/-- Mantissa of a Python float literal: `digits`, `digits.`, `.digits` or
`digits.digits`.  Returns the mantissa digits as a number together with
the count of fractional digits. -/
def parseMantissa? (cs : List Char) : Option (ℕ × ℕ) :=
  match splitOnChar '.' cs with
  | [ip] => if okDigitRun ip then some (runVal ip, 0) else none
  | [ip, fp] =>
    if ip.isEmpty then
      if okDigitRun fp then some (runVal fp, (runDigits fp).length) else none
    else if fp.isEmpty then
      if okDigitRun ip then some (runVal ip, 0) else none
    else
      if okDigitRun ip && okDigitRun fp then
        some (runVal ip * 10 ^ (runDigits fp).length + runVal fp, (runDigits fp).length)
      else none
  | _ => none

/-- The float `sign * m / 10^fd * 10^(esign*e)` in lowest terms. -/
def fltOfParts (sign : Int) (m : ℕ) (fd : ℕ) (esign : Int) (e : ℕ) : Flt :=
  if 0 ≤ esign then normFlt (sign * (m : Int) * 10 ^ e) (10 ^ fd)
  else normFlt (sign * (m : Int)) (10 ^ (fd + e))

/-- Python `float(s)` on decimal literals: optional sign, mantissa,
optional `e`/`E` exponent.  The special literals `inf`/`infinity`/`nan`
are not modelled (no property below exercises them, and the exact
fraction carrier cannot hold them). -/
def pyFloatParse? (s : String) : Option Flt :=
  let cs := stripChars s.data
  let sb : Int × List Char :=
    match cs with
    | '+' :: rest => (1, rest)
    | '-' :: rest => (-1, rest)
    | _ => (1, cs)
  let lowBody := sb.2.map Char.toLower
  match splitOnChar 'e' lowBody with
  | [m] => (parseMantissa? m).map (fun p => fltOfParts sb.1 p.1 p.2 1 0)
  | [m, ex] =>
    let se : Int × List Char :=
      match ex with
      | '+' :: r => (1, r)
      | '-' :: r => (-1, r)
      | _ => (1, ex)
    if okDigitRun se.2 then
      (parseMantissa? m).map (fun p => fltOfParts sb.1 p.1 p.2 se.1 (runVal se.2))
    else none
  | _ => none

/-- Python `str()` of a float, modelled as the plain decimal expansion
(sign, integer part, point, fractional digits, at least one of each).
Binary floats always have a terminating decimal expansion; the exponent
notation Python switches to for very large/small magnitudes is not
modelled (no property below exercises it). -/
def pyStrFloat (q : Flt) : String :=
  let sign := if q.num < 0 then "-" else ""
  let n := q.num.natAbs
  let d := q.den
  match (List.range 64).find? (fun k => 10 ^ k % d == 0) with
  | some k =>
    let digits := (Nat.repr (n * 10 ^ k / d)).data
    let cs := List.replicate (k + 1 - digits.length) '0' ++ digits
    let ip := cs.take (cs.length - k)
    let fp := cs.drop (cs.length - k)
    sign ++ String.mk ip ++ "." ++ (if fp.isEmpty then "0" else String.mk fp)
  | none => sign ++ Nat.repr n ++ "/" ++ Nat.repr d

/-- Python `str()` on the values that can reach `parse_value`.  In the
source only table cells and form text reach it, which are scalars; the
container placeholder is never exercised. -/
def pyStr : PyVal → String
  | .pynone => "None"
  | .pybool true => "True"
  | .pybool false => "False"
  | .pyint n => toString n
  | .pyfloat q => pyStrFloat q
  | .pystr s => s
  | _ => "<object>"

/-- The truthy literals of `parse_value`'s bool branch (main.py line 68). -/
def truthySet : List String := ["1", "true", "yes", "y", "t"]

/-- The falsy literals of `parse_value`'s bool branch (main.py line 70). -/
def falsySet : List String := ["0", "false", "no", "n", "f"]

/-- The heuristics block of `parse_value` (main.py lines 79–88): boolean
literals, then float when the text has a decimal point or an `e`, else
int; a parse failure returns the (stripped) string. -/
def pyHeuristic (s : String) : PyVal :=
  let low := pyLower s
  if low = "true" then .pybool true
  else if low = "false" then .pybool false
  else if hasChar s '.' || hasChar low 'e' then
    match pyFloatParse? s with
    | some q => .pyfloat q
    | none => .pystr s
  else
    match pyIntParse? s with
    | some n => .pyint n
    | none => .pystr s

/-- The body of `parse_value(text, annotation)` (main.py lines 58–88) on
the stripped text: a blank yields `None`.  The annotation block stands in
a `try`/`except Exception: pass`: only the `int(s)`/`float(s)` calls can
raise there, and a raised parse error falls through to the heuristics
block — `parse_value` is total and never raises. -/
def parse_value_core (s : String) (ann : Ann) : PyVal :=
  if s = "" then .pynone
  else
    match ann with
    | .aint =>
      match pyIntParse? s with
      | some n => .pyint n
      | none => pyHeuristic s
    | .afloat =>
      match pyFloatParse? s with
      | some q => .pyfloat q
      | none => pyHeuristic s
    | .abool =>
      if truthySet.contains (pyLower s) then .pybool true
      else if falsySet.contains (pyLower s) then .pybool false
      else .pybool true
    | .astr => .pystr s
    | .anone => pyHeuristic s

/-- `parse_value` itself: the `None` short-circuit of line 55, then
`s = str(text).strip()` of line 57 feeding the body above. -/
def parse_value (text : PyVal) (ann : Ann) : PyVal :=
  match text with
  | .pynone => .pynone
  | _ => parse_value_core (pyStrip (pyStr text)) ann

example : parse_value (.pystr "42") .aint = .pyint 42 := rfl
example : parse_value (.pystr "") .aint = .pynone := rfl
example : parse_value (.pystr "3.14") .anone = .pyfloat ⟨157, 50⟩ := rfl
example : parse_value (.pystr "7") .anone = .pyint 7 := rfl
example : parse_value (.pystr "abc") .anone = .pystr "abc" := rfl
example : parse_value (.pystr "1e2") .anone = .pyfloat ⟨100, 1⟩ := rfl
example : parse_value (.pystr "TRUE") .anone = .pybool true := rfl
example : parse_value (.pystr "Yes") .abool = .pybool true := rfl
example : parse_value (.pyfloat ⟨20, 1⟩) .anone = .pyfloat ⟨20, 1⟩ := rfl
example : parse_value (.pystr "3.5") .aint = .pyfloat ⟨7, 2⟩ := rfl
example : parse_value (.pystr " true ") .anone = .pybool true := rfl
example : parse_value (.pynone) .aint = .pynone := rfl
example : parse_value (.pystr "-2.5e-2") .anone = .pyfloat ⟨-1, 40⟩ := rfl
example : pyStrFloat ⟨20, 1⟩ = "20.0" := rfl
example : pyStrFloat ⟨1, 2⟩ = "0.5" := rfl
example : pyStrFloat ⟨-157, 50⟩ = "-3.14" := rfl

/-- A parameter of the selected function's signature, as `inspect.signature`
reports it: name, annotation, and default (`none` models
`inspect._empty`, i.e. a required parameter). -/
structure Param where
  name : String
  ann : Ann
  default : Option PyVal

/-- An input table as `pd.read_csv` yields it: named columns and rows of
cells.  A missing/NaN cell is modelled directly as `pynone` (the source's
`pd.isna(val)` check turns it into `None` before parsing). -/
structure InTable where
  cols : List String
  rows : List (List PyVal)

/-- An output table: ordered named columns with value lists. -/
abbrev Table := List (String × List PyVal)

/-- The keyword arguments bound for one row. -/
abbrev Kwargs := List (String × PyVal)

/-- The parameters the source iterates over (it skips `self`/`cls`). -/
def activeParams (params : List Param) : List Param :=
  params.filter (fun p => !(p.name == "self") && !(p.name == "cls"))

/-- The required parameter names: active parameters with no default
(main.py lines 293–296). -/
def requiredNames (params : List Param) : List String :=
  ((activeParams params).filter (fun p => p.default.isNone)).map Param.name

/-- Lexicographic comparison of strings by code point (Python `sorted`). -/
def charListLe : List Char → List Char → Bool
  | [], _ => true
  | _ :: _, [] => false
  | a :: as, b :: bs =>
    if a.val < b.val then true
    else if b.val < a.val then false
    else charListLe as bs

/-- String order used by Python's `sorted`. -/
def strLe (a b : String) : Bool := charListLe a.data b.data

/-- Insert into a sorted list of strings. -/
def insertSorted (a : String) : List String → List String
  | [] => [a]
  | b :: l => if strLe a b then a :: b :: l else b :: insertSorted a l

/-- Insertion sort on strings (Python `sorted`). -/
def sortStrs (l : List String) : List String := l.foldr insertSorted []

/-- Deduplicate keeping the first occurrence (Python `set` then `sorted`
makes the order irrelevant, but uniqueness matters). -/
def firstDedupAux (seen : List String) : List String → List String
  | [] => []
  | c :: rest =>
    if seen.contains c then firstDedupAux seen rest
    else c :: firstDedupAux (c :: seen) rest

/-- Deduplicate keeping the first occurrence. -/
def firstDedup (l : List String) : List String := firstDedupAux [] l

/-- The missing required columns, as the sorted set difference
`required - cols` of `App.validate_headers` (main.py lines 291–300). -/
def missingCols (cols : List String) (params : List Param) : List String :=
  sortStrs (firstDedup ((requiredNames params).filter (fun c => !cols.contains c)))

/-- `App.validate_headers` (main.py lines 291–300): `None` when every
required parameter has a column, else one error naming every missing
column, sorted. -/
def validate_headers (cols : List String) (params : List Param) : Option String :=
  match missingCols cols params with
  | [] => none
  | ms => some ("Missing required columns: " ++ String.intercalate ", " ms)

/-- Map a fallible function over a list, stopping at the first error —
the control flow of a Python `for` loop whose body may `return`. -/
def exceptMap (g : α → Except String β) : List α → Except String (List β)
  | [] => .ok []
  | a :: l =>
    match g a with
    | .error e => .error e
    | .ok b =>
      match exceptMap g l with
      | .error e => .error e
      | .ok bs => .ok (b :: bs)

/-- The cell of a row under a column name (`row[name]`). -/
def getCell (cols : List String) (row : List PyVal) (name : String) : PyVal :=
  match cols.findIdx? (fun c => c == name) with
  | some i => row.getD i PyVal.pynone
  | none => PyVal.pynone

/-- Bind one parameter for one row (main.py lines 323–337): a cell under
the parameter's column is parsed with `parse_value`; a missing column
falls back to the default, and a missing column with no default aborts
the whole batch (unreachable after header validation). -/
def bindParam (cols : List String) (row : List PyVal) (p : Param) :
    Except String (String × PyVal) :=
  if p.name ∈ cols then
    .ok (p.name, parse_value (getCell cols row p.name) p.ann)
  else
    match p.default with
    | none => .error ("Missing required column " ++ p.name)
    | some d => .ok (p.name, d)

/-- Bind all parameters for one row. -/
def bindRow (cols : List String) (row : List PyVal) (params : List Param) :
    Except String Kwargs :=
  exceptMap (bindParam cols row) (activeParams params)

/-- Build the argument rows for the whole table (main.py lines 320–338). -/
def buildArgs (tbl : InTable) (params : List Param) : Except String (List Kwargs) :=
  exceptMap (fun row => bindRow tbl.cols row params) tbl.rows

/-- The value a row contributes to `results` (main.py lines 343–349): the
return value on success, `None` when the invocation raised. -/
def resultOf : Except String PyVal → PyVal
  | .ok v => v
  | .error _ => PyVal.pynone

/-- The results list of the compute loop. -/
def resultsOf (f : Kwargs → Except String PyVal) (args : List Kwargs) : List PyVal :=
  args.map (fun kw => resultOf (f kw))

/-- One row-level diagnostic message (main.py line 349). -/
def rowErrMsg (k : ℕ) (e : String) : String := s!"Row {k}: {e}"

/-- The error text of an invocation outcome (empty for a success; only
read for failures). -/
def errText : Except String PyVal → String
  | .error e => e
  | .ok _ => ""

/-- The diagnostics list of the compute loop: one message per failing
row, in row order, naming the row index. -/
def errorsOf (f : Kwargs → Except String PyVal) (args : List Kwargs) : List String :=
  args.enum.filterMap (fun ik =>
    match f ik.2 with
    | .error e => some (rowErrMsg ik.1 e)
    | .ok _ => none)

/-- The status line set after the loop (main.py lines 350–355). -/
def statusOf (errors : List String) : String :=
  if errors.isEmpty then "Completed"
  else s!"Completed with {errors.length} errors; see console."

/-- Is the value a `DataFrame`? -/
def isFrameV : PyVal → Bool
  | .pyframe _ => true
  | _ => false

/-- Is the value a `Series`? -/
def isSeriesV : PyVal → Bool
  | .pyseries _ _ => true
  | _ => false

/-- Is the value a `dict`? -/
def isDictV : PyVal → Bool
  | .pydict _ => true
  | _ => false

/-- Is the value a `list` or `tuple`? -/
def isListV : PyVal → Bool
  | .pylist _ => true
  | _ => false

/-- Is the value `None`? -/
def isNoneV : PyVal → Bool
  | .pynone => true
  | _ => false

/-- A scalar for the normalizer: anything that is not a frame, Series,
dict or list/tuple (`None` included). -/
def isScalarV (v : PyVal) : Bool :=
  !(isFrameV v) && !(isSeriesV v) && !(isDictV v) && !(isListV v)

/-- Mapping-like for `pd.DataFrame(list)`: a dict, or a Series (which the
constructor converts through `dict(...)`). -/
def isMappingV (v : PyVal) : Bool := isDictV v || isSeriesV v

/-- The record of a mapping-like value. -/
def recOf : PyVal → List (String × PyVal)
  | .pydict kvs => kvs
  | .pyseries _ kvs => kvs
  | _ => []

/-- The records a `pd.concat` entry contributes: a `DataFrame` appends
its records; a `Series` is concatenated as the one-column frame of its
values, the column named after the series. -/
def concatRecs : PyVal → List (List (String × PyVal))
  | .pyframe rs => rs
  | .pyseries nm kvs => kvs.map (fun kv => [(nm, kv.2)])
  | _ => []

/-- Records to a columnar table: columns are the union of the record keys
in order of first appearance; a record without a key contributes an
absent value in that column. -/
def recordsToTable (recs : List (List (String × PyVal))) : Table :=
  (firstDedup ((recs.map (fun r => r.map Prod.fst)).flatten)).map
    (fun c => (c, recs.map (fun r => ((r.lookup c).getD PyVal.pynone))))

/-- `pd.concat(results, ignore_index=True)` (main.py line 424), modelled
from the documented semantics: `None` entries are dropped silently, a
sequence of only `None` raises `ValueError`, `DataFrame` entries append
their records, a `Series` entry is concatenated as the one-column frame
of its values (column named after the series), and any other entry
(scalar, list, dict) raises `TypeError`. -/
def pconcat (results : List PyVal) : Except String Table :=
  let objs := results.filter (fun r => !(isNoneV r))
  if objs.isEmpty then .error "ValueError: All objects passed were None"
  else if objs.all (fun r => isFrameV r || isSeriesV r) then
    .ok (recordsToTable ((objs.map concatRecs).flatten))
  else .error "TypeError: cannot concatenate object; only Series and DataFrame objs are valid"

/-- `pd.DataFrame(results)` over a list whose first element is a mapping
or a Series (main.py lines 426–429), modelled for lists of dicts and
Series: the records align on the union of their keys, absent keys filled
with `NaN`.  A later absent, scalar or sequence element raises
(`dict(None)`, `dict(5)`, `dict([...])` all raise).  Outside the
modelled scope and treated as the error path: a later `DataFrame`
(pandas feeds it through `dict(df)`, yielding a record of column Series)
and the Series-first-with-dict-elements alignment corner. -/
def pdFromRecords (results : List PyVal) : Except String Table :=
  if results.all isMappingV then .ok (recordsToTable (results.map recOf))
  else .error "TypeError: DataFrame constructor called with incompatible data"

/-- The length the sequence branch gives a result
(`len(r) if isinstance(r, (list, tuple)) else 1`, main.py line 432). -/
def seqLen : PyVal → ℕ
  | .pylist xs => xs.length
  | _ => 1

/-- `max_len` of the sequence branch. -/
def maxSeqLen (results : List PyVal) : ℕ :=
  results.foldl (fun m r => max m (seqLen r)) 0

/-- One padded row of the sequence branch (main.py lines 435–440). -/
def padRow (len : ℕ) : PyVal → List PyVal
  | .pylist xs => xs ++ List.replicate (len - xs.length) PyVal.pynone
  | v => [v] ++ List.replicate (len - 1) PyVal.pynone

/-- Elements a list/tuple result contributes in the sequence branch
(`list(r)` for a sequence, the singleton `[r]` otherwise). -/
def seqElems : PyVal → List PyVal
  | .pylist xs => xs
  | v => [v]

/-- A raw scalar cell value (what a table cell or form field can hold). -/
def isRawV : PyVal → Bool
  | .pynone => true
  | .pybool _ => true
  | .pyint _ => true
  | .pyfloat _ => true
  | .pystr _ => true
  | _ => false

/-- `pd.DataFrame(norm, columns=cols)`: a row-major matrix as a columnar
table. -/
def tableFromRows (cols : List String) (rows : List (List PyVal)) : Table :=
  (List.range cols.length).map
    (fun i => (cols.getD i "", rows.map (fun r => r.getD i PyVal.pynone)))

/-- `App.normalize_results` (main.py lines 412–443): an empty result list
gives an empty table; otherwise the first result's shape picks the
branch — `DataFrame` concatenation, `Series`/`dict` records, `list`/
`tuple` padding into `result_i` columns, else a single `result` column. -/
def normalize_results (results : List PyVal) : Except String Table :=
  match results with
  | [] => .ok []
  | first :: _ =>
    if isFrameV first then pconcat results
    else if isSeriesV first then pdFromRecords results
    else if isDictV first then pdFromRecords results
    else if isListV first then
      let len := maxSeqLen results
      .ok (tableFromRows ((List.range len).map (fun i => s!"result_{i}"))
        (results.map (padRow len)))
    else .ok [("result", results)]

/-- The columns of the input table itself, as `df.reset_index(drop=True)`
presents them for the final horizontal concatenation. -/
def dfCols (tbl : InTable) : Table :=
  (List.range tbl.cols.length).map
    (fun i => (tbl.cols.getD i "", tbl.rows.map (fun r => r.getD i PyVal.pynone)))

/-- Height of a columnar table (its longest column). -/
def tableHeight (t : Table) : ℕ :=
  t.foldl (fun m c => max m c.2.length) 0

/-- Pad a column to a length with absent values. -/
def padColTo (n : ℕ) (vs : List PyVal) : List PyVal :=
  vs ++ List.replicate (n - vs.length) PyVal.pynone

/-- `pd.concat([df, out_df], axis=1)` (main.py line 359): original columns
first, result columns appended; on default integer indexes a shorter side
is padded with absent values. -/
def joinTables (a b : Table) : Table :=
  let h := max (tableHeight a) (tableHeight b)
  (a ++ b).map (fun c => (c.1, padColTo h c.2))

/-- The outcome of one `App.process_csv` call. -/
inductive Outcome where
  | headerError : String → Outcome
  | bindAbort : String → Outcome
  | crashed : List String → String → String → Outcome
  | done : List String → String → Table → Table → Outcome

/-- `App.process_csv` (main.py lines 302–361), from the point where the
table has been read: header validation (early return), argument binding
(its mid-loop abort returns before any invocation), the compute loop with
per-row exception capture, the status line, normalization (whose own
exception would propagate out: `crashed` carries the status already set
and the pending diagnostics), and the horizontal join with the original
columns.  The target function is `f`: its `.error` is a raised exception
with its message. -/
def process_csv (f : Kwargs → Except String PyVal) (params : List Param)
    (tbl : InTable) : Outcome :=
  match validate_headers tbl.cols params with
  | some err =>
    .headerError (err ++ "\nExpected at least: " ++
      String.intercalate ", " (requiredNames params))
  | none =>
    match buildArgs tbl params with
    | .error m => .bindAbort m
    | .ok args =>
      let results := resultsOf f args
      let errors := errorsOf f args
      match normalize_results results with
      | .error exn => .crashed errors (statusOf errors) exn
      | .ok out => .done errors (statusOf errors) out (joinTables (dfCols tbl) out)

example : normalize_results [.pyint 1, .pyint 2, .pyint 3] =
    .ok [("result", [.pyint 1, .pyint 2, .pyint 3])] := rfl
example : normalize_results [.pylist [.pyint 1, .pyint 2], .pylist [.pyint 3]] =
    .ok [("result_0", [.pyint 1, .pyint 3]), ("result_1", [.pyint 2, .pynone])] := rfl
example : normalize_results [] = .ok [] := rfl
example : normalize_results [.pynone, .pylist [.pyint 1, .pyint 2]] =
    .ok [("result", [.pynone, .pylist [.pyint 1, .pyint 2]])] := rfl
example : normalize_results [.pyframe [[("r", .pyint 1)]], .pynone] =
    .ok [("r", [.pyint 1])] := rfl
example : normalize_results
      [.pyframe [[("a", .pyint 1)]], .pyseries "0" [("x", .pyint 5), ("y", .pyint 6)]] =
    .ok [("a", [.pyint 1, .pynone, .pynone]), ("0", [.pynone, .pyint 5, .pyint 6])] := rfl
example : normalize_results [.pyframe [[("r", .pyint 1)]], .pyint 5] =
    .error "TypeError: cannot concatenate object; only Series and DataFrame objs are valid" := rfl
example : validate_headers ["a"] [⟨"a", .anone, none⟩, ⟨"b", .anone, none⟩] =
    some "Missing required columns: b" := rfl

/-- A target function for concrete runs: succeeds with `None`. -/
def wFok : Kwargs → Except String PyVal := fun _ => .ok PyVal.pynone

/-- A target function that reports whether parameter `a` was bound to the
absent value: returns 1 when `a` is `None`, else 0. -/
def cexF2 : Kwargs → Except String PyVal := fun kw =>
  match kw.lookup "a" with
  | some PyVal.pynone => .ok (PyVal.pyint 1)
  | _ => .ok (PyVal.pyint 0)

/-- A target function returning a one-row `DataFrame` (`r = 10 * a`) for
every row except `a = 2`, where it raises. -/
def cexF1 : Kwargs → Except String PyVal := fun kw =>
  match kw.lookup "a" with
  | some (PyVal.pyint 2) => .error "boom"
  | some (PyVal.pyint n) => .ok (PyVal.pyframe [[("r", PyVal.pyint (10 * n))]])
  | _ => .error "other"

/-- A target function raising exactly on `a = 2` and returning the scalar
9 elsewhere. -/
def wF1 : Kwargs → Except String PyVal := fun kw =>
  match kw.lookup "a" with
  | some (PyVal.pyint 2) => .error "boom"
  | _ => .ok (PyVal.pyint 9)

/-- The indices of the rows whose invocation raised. -/
def failIdx (f : Kwargs → Except String PyVal) (args : List Kwargs) : List ℕ :=
  (args.enum.filter (fun ik => !(f ik.2).isOk)).map Prod.fst

theorem dropWhile_self_eq {p : Char → Bool} :
    ∀ l : List Char, (l.dropWhile p).dropWhile p = l.dropWhile p := by
  intro l
  induction l with
  | nil => rfl
  | cons a l ih =>
    by_cases h : p a
    · simp [List.dropWhile_cons, h, ih]
    · simp [List.dropWhile_cons, h]

theorem head_dropWhile_false {p : Char → Bool} :
    ∀ (l : List Char) (a : Char), (l.dropWhile p).head? = some a → p a = false := by
  intro l
  induction l with
  | nil => intro a h; simp at h
  | cons b l ih =>
    intro a h
    by_cases hb : p b
    · rw [List.dropWhile_cons_of_pos hb] at h
      exact ih a h
    · rw [List.dropWhile_cons_of_neg hb] at h
      simp at h
      subst h
      simpa using hb

theorem dropWhile_eq_self_of_head {p : Char → Bool} (l : List Char)
    (h : ∀ a, l.head? = some a → p a = false) : l.dropWhile p = l := by
  cases l with
  | nil => rfl
  | cons a l =>
    have := h a rfl
    simp [List.dropWhile_cons, this]

theorem stripChars_idem (cs : List Char) : stripChars (stripChars cs) = stripChars cs := by
  unfold stripChars
  set A := cs.dropWhile isPyWs with hA
  set B := A.reverse.dropWhile isPyWs with hB
  have hBpre : B.reverse <+: A := by
    have h1 : B <:+ A.reverse := List.dropWhile_suffix _
    have h2 : B.reverse <+: A.reverse.reverse := List.reverse_prefix.mpr h1
    simpa using h2
  have hBrev : B.reverse.dropWhile isPyWs = B.reverse := by
    apply dropWhile_eq_self_of_head
    intro a ha
    cases hBr : B.reverse with
    | nil => rw [hBr] at ha; simp at ha
    | cons x xs =>
      rw [hBr] at ha
      simp only [List.head?_cons, Option.some.injEq] at ha
      obtain rfl := ha
      obtain ⟨t, ht⟩ := hBpre
      rw [hBr] at ht
      have hAhead : A.head? = some x := by
        rw [← ht]; rfl
      rw [hA] at hAhead
      exact head_dropWhile_false cs x hAhead
  have hBdw : B.dropWhile isPyWs = B := dropWhile_self_eq A.reverse
  show ((B.reverse.dropWhile isPyWs).reverse.dropWhile isPyWs).reverse = B.reverse
  rw [hBrev]
  simp only [List.reverse_reverse]
  rw [hBdw]

theorem pyStrip_idem (s : String) : pyStrip (pyStrip s) = pyStrip s := by
  unfold pyStrip
  exact congrArg String.mk (stripChars_idem s.data)

theorem exceptMap_ok_length {g : α → Except String β} :
    ∀ {l : List α} {res : List β}, exceptMap g l = .ok res → res.length = l.length := by
  intro l
  induction l with
  | nil => intro res h; simp [exceptMap] at h; simp [← h]
  | cons a l ih =>
    intro res h
    simp only [exceptMap] at h
    cases hga : g a with
    | error e => rw [hga] at h; simp at h
    | ok b =>
      rw [hga] at h
      cases hrec : exceptMap g l with
      | error e => rw [hrec] at h; simp at h
      | ok bs =>
        rw [hrec] at h
        simp only [Except.ok.injEq] at h
        subst h
        simp [ih hrec]

theorem exceptMap_ok_of_forall {g : α → Except String β} :
    ∀ {l : List α}, (∀ a ∈ l, ∃ b, g a = .ok b) →
      ∃ res, exceptMap g l = .ok res := by
  intro l
  induction l with
  | nil => intro _; exact ⟨[], rfl⟩
  | cons a l ih =>
    intro h
    obtain ⟨b, hb⟩ := h a (List.mem_cons_self a l)
    obtain ⟨bs, hbs⟩ := ih (fun x hx => h x (List.mem_cons_of_mem a hx))
    exact ⟨b :: bs, by simp [exceptMap, hb, hbs]⟩

theorem mem_insertSorted {a b : String} {l : List String} :
    a ∈ insertSorted b l ↔ a = b ∨ a ∈ l := by
  induction l with
  | nil => simp [insertSorted]
  | cons c l ih =>
    simp only [insertSorted]
    by_cases h : strLe b c
    · simp [h, List.mem_cons]
    · rw [if_neg h]
      simp only [List.mem_cons, ih]
      tauto

theorem mem_sortStrs {a : String} {l : List String} :
    a ∈ sortStrs l ↔ a ∈ l := by
  induction l with
  | nil => simp [sortStrs]
  | cons c l ih =>
    simp only [sortStrs, List.foldr_cons]
    rw [show List.foldr insertSorted [] l = sortStrs l from rfl]
    rw [mem_insertSorted, ih]
    simp [List.mem_cons]

theorem mem_firstDedupAux {a : String} :
    ∀ {l seen : List String}, a ∈ firstDedupAux seen l ↔ a ∈ l ∧ a ∉ seen := by
  intro l
  induction l with
  | nil => intro seen; simp [firstDedupAux]
  | cons c l ih =>
    intro seen
    simp only [firstDedupAux]
    by_cases h : seen.contains c
    · have hc : c ∈ seen := List.elem_iff.mp h
      rw [if_pos h, ih]
      simp only [List.mem_cons]
      constructor
      · rintro ⟨hm, hs⟩
        exact ⟨Or.inr hm, hs⟩
      · rintro ⟨rfl | hm, hs⟩
        · exact absurd hc hs
        · exact ⟨hm, hs⟩
    · have hc : c ∉ seen := fun hx => h (List.elem_iff.mpr hx)
      rw [if_neg h]
      simp only [List.mem_cons, ih, List.mem_cons]
      constructor
      · rintro (rfl | ⟨hm, hs⟩)
        · exact ⟨Or.inl rfl, hc⟩
        · refine ⟨Or.inr hm, fun hx => hs (Or.inr hx)⟩
      · rintro ⟨hm, hs⟩
        by_cases hac : a = c
        · exact Or.inl hac
        · rcases hm with rfl | hm
          · exact absurd rfl hac
          · refine Or.inr ⟨hm, fun hx => ?_⟩
            rcases hx with rfl | hx
            · exact hac rfl
            · exact hs hx

theorem mem_firstDedup {a : String} {l : List String} :
    a ∈ firstDedup l ↔ a ∈ l := by
  unfold firstDedup
  rw [mem_firstDedupAux]
  simp

theorem mem_missingCols {c : String} {cols : List String} {params : List Param} :
    c ∈ missingCols cols params ↔ c ∈ requiredNames params ∧ c ∉ cols := by
  unfold missingCols
  rw [mem_sortStrs, mem_firstDedup, List.mem_filter]
  constructor
  · rintro ⟨hm, hf⟩
    refine ⟨hm, fun hx => ?_⟩
    have hcc : cols.contains c = true := List.elem_iff.mpr hx
    rw [hcc] at hf
    simp at hf
  · rintro ⟨hm, hx⟩
    refine ⟨hm, ?_⟩
    have hcc : cols.contains c = false := by
      rw [Bool.eq_false_iff]
      intro hc
      exact hx (List.elem_iff.mp hc)
    simp [hcc]
    exact hx

theorem validate_none_iff {cols : List String} {params : List Param} :
    validate_headers cols params = none ↔ missingCols cols params = [] := by
  unfold validate_headers
  cases h : missingCols cols params with
  | nil => simp
  | cons m ms => simp

theorem required_mem_cols {cols : List String} {params : List Param}
    (hv : validate_headers cols params = none) :
    ∀ p ∈ activeParams params, p.default = none → p.name ∈ cols := by
  intro p hp hd
  by_contra hx
  have hreq : p.name ∈ requiredNames params := by
    unfold requiredNames
    exact List.mem_map_of_mem Param.name (List.mem_filter.mpr ⟨hp, by simp [hd]⟩)
  have : p.name ∈ missingCols cols params := mem_missingCols.mpr ⟨hreq, hx⟩
  rw [validate_none_iff.mp hv] at this
  simp at this

theorem getD_map_lt {α β : Type} (g : α → β) (l : List α) (i : ℕ) (h : i < l.length)
    (d : β) (d' : α) : (l.map g).getD i d = g (l.getD i d') := by
  rw [List.getD_eq_getElem l d' h,
    List.getD_eq_getElem (l.map g) d (by simpa using h)]
  simp

theorem getD_replicate_self (a : PyVal) : ∀ (m i : ℕ), (List.replicate m a).getD i a = a := by
  intro m
  induction m with
  | zero => intro i; simp [List.getD]
  | succ k ih =>
    intro i
    cases i with
    | zero => simp [List.replicate]
    | succ j => simpa [List.replicate] using ih j

theorem pad_getD : ∀ (xs : List PyVal) (m i : ℕ),
    (xs ++ List.replicate m PyVal.pynone).getD i PyVal.pynone = xs.getD i PyVal.pynone := by
  intro xs
  induction xs with
  | nil => intro m i; simpa using getD_replicate_self PyVal.pynone m i
  | cons x xs ih =>
    intro m i
    cases i with
    | zero => rfl
    | succ j => simpa using ih m j

theorem filterMap_if {α β : Type} (p : α → Bool) (h : α → β) :
    ∀ l : List α, l.filterMap (fun a => if p a then some (h a) else none) =
      (l.filter p).map h := by
  intro l
  induction l with
  | nil => rfl
  | cons a l ih =>
    by_cases hp : p a
    · simp [List.filterMap_cons, List.filter_cons, hp, ih]
    · simp [List.filterMap_cons, List.filter_cons, hp, ih]

theorem padRow_eq (len : ℕ) (r : PyVal) :
    padRow len r = seqElems r ++ List.replicate (len - (seqElems r).length) PyVal.pynone := by
  cases r <;> rfl

theorem norm_scalar (r : PyVal) (rs : List PyVal) (h : isScalarV r = true) :
    normalize_results (r :: rs) = .ok [("result", r :: rs)] := by
  cases r <;> first
    | rfl
    | simp [isScalarV, isFrameV, isSeriesV, isDictV, isListV] at h

theorem norm_list (xs rs2 : List PyVal) :
    normalize_results (PyVal.pylist xs :: rs2) =
      .ok (tableFromRows
        ((List.range (maxSeqLen (PyVal.pylist xs :: rs2))).map (fun i => s!"result_{i}"))
        ((PyVal.pylist xs :: rs2).map (padRow (maxSeqLen (PyVal.pylist xs :: rs2))))) := rfl

theorem norm_seq_table (results : List PyVal) (len : ℕ) :
    tableFromRows ((List.range len).map (fun i => s!"result_{i}"))
        (results.map (padRow len)) =
      (List.range len).map
        (fun k => (s!"result_{k}", results.map (fun r => (seqElems r).getD k PyVal.pynone))) := by
  unfold tableFromRows
  simp only [List.length_map, List.length_range]
  apply List.map_congr_left
  intro i hi
  have hiL : i < len := List.mem_range.mp hi
  simp only [Prod.mk.injEq]
  refine ⟨?_, ?_⟩
  · rw [getD_map_lt (fun k => s!"result_{k}") (List.range len) i (by simpa using hiL) "" 0]
    congr 1
    rw [List.getD_eq_getElem _ _ (by simpa using hiL)]
    simp
  · rw [List.map_map]
    apply List.map_congr_left
    intro r _
    simp only [Function.comp]
    rw [padRow_eq, pad_getD]

/-- C3 counterexample: the claim says unparseable input is returned as
the original string unchanged; on the raw text `"  abc  "` (declared type
`int`) the coercer returns the stripped string `"abc"`, not the original
`"  abc  "`. -/
theorem c3_cex_trimmed_not_original :
    parse_value (PyVal.pystr "  abc  ") Ann.aint = PyVal.pystr "abc" ∧
    PyVal.pystr "abc" ≠ PyVal.pystr "  abc  " :=
  ⟨rfl, by simp⟩

/-- C3 (amended): the value coercer is total by construction — every
exception of the annotation block is caught (the embedding returns a
`PyVal`, never an error) — and when the text parses under neither the
declared type nor the heuristics (no int, no float, no boolean literal,
and `bool`-typed parameters never fail), the WHITESPACE-TRIMMED string is
returned. -/
theorem c3_coerce_total_string_fallback (s : String) (ann : Ann)
    (hb : ann ≠ Ann.abool)
    (h0 : pyStrip s ≠ "")
    (hi : pyIntParse? (pyStrip s) = none)
    (hf : pyFloatParse? (pyStrip s) = none)
    (ht : pyLower (pyStrip s) ≠ "true")
    (hfa : pyLower (pyStrip s) ≠ "false") :
    parse_value (PyVal.pystr s) ann = PyVal.pystr (pyStrip s) := by
  show parse_value_core (pyStrip s) ann = PyVal.pystr (pyStrip s)
  have hheur : pyHeuristic (pyStrip s) = PyVal.pystr (pyStrip s) := by
    unfold pyHeuristic
    rw [if_neg ht, if_neg hfa]
    split
    · rw [hf]
    · rw [hi]
  unfold parse_value_core
  rw [if_neg h0]
  cases ann with
  | abool => exact absurd rfl hb
  | astr => rfl
  | anone => exact hheur
  | aint => rw [hi]; exact hheur
  | afloat => rw [hf]; exact hheur

/-- C3 witness: the fallback theorem applied at the text `"abc"` with
declared type `int`. -/
theorem c3_witness :
    (Ann.aint ≠ Ann.abool ∧ pyStrip "abc" ≠ "" ∧
      pyIntParse? (pyStrip "abc") = none ∧ pyFloatParse? (pyStrip "abc") = none ∧
      pyLower (pyStrip "abc") ≠ "true" ∧ pyLower (pyStrip "abc") ≠ "false") ∧
    parse_value (PyVal.pystr "abc") Ann.aint = PyVal.pystr (pyStrip "abc") :=
  ⟨⟨by decide, by decide, by decide, by decide, by decide, by decide⟩,
    c3_coerce_total_string_fallback "abc" Ann.aint (by decide) (by decide) (by decide)
      (by decide) (by decide) (by decide)⟩

/-- C4 counterexample: the claim says unparseable non-blank input under a
declared `int` raises a coercion error propagated to the caller, so that
the result is always an integer, `None`, or a raised error.  In the code
the `int(s)` error is swallowed by `except Exception: pass` and the
heuristics run instead: `coerce("abc", int)` returns the STRING `"abc"`
(no error reaches the caller), and `coerce("3.5", int)` returns the FLOAT
3.5. -/
theorem c4_cex_int_error_swallowed :
    parse_value (PyVal.pystr "abc") Ann.aint = PyVal.pystr "abc" ∧
    parse_value (PyVal.pystr "3.5") Ann.aint = PyVal.pyfloat ⟨7, 2⟩ ∧
    PyVal.pystr "abc" ≠ PyVal.pynone :=
  ⟨rfl, rfl, by simp⟩

/-- C4 (amended): `coerce("42", int) == 42` and `coerce("", int) == None`
hold; on non-blank input that does not parse as an integer no error is
raised — the annotation block's error is swallowed and the heuristics
block decides the result (which may be a float, a boolean or the trimmed
string). -/
theorem c4_coerce_int :
    parse_value (PyVal.pystr "42") Ann.aint = PyVal.pyint 42 ∧
    parse_value (PyVal.pystr "") Ann.aint = PyVal.pynone ∧
    ∀ s : String, pyStrip s ≠ "" → pyIntParse? (pyStrip s) = none →
      parse_value (PyVal.pystr s) Ann.aint = pyHeuristic (pyStrip s) := by
  refine ⟨rfl, rfl, fun s h0 hi => ?_⟩
  show parse_value_core (pyStrip s) Ann.aint = pyHeuristic (pyStrip s)
  unfold parse_value_core
  rw [if_neg h0, hi]

/-- C4 witness: the fallback clause applied at `"3.5"`, where the
heuristics yield the float 3.5. -/
theorem c4_witness :
    (pyStrip "3.5" ≠ "" ∧ pyIntParse? (pyStrip "3.5") = none) ∧
    parse_value (PyVal.pystr "3.5") Ann.aint = pyHeuristic (pyStrip "3.5") :=
  ⟨⟨by decide, by decide⟩, c4_coerce_int.2.2 "3.5" (by decide) (by decide)⟩

/-- C8 counterexample: the claim applies the heuristics to the raw text
and returns the original string unchanged when nothing parses.  The raw
text `" true "` is not an exact case-insensitive `"true"` and parses as
neither float nor int, so the claim predicts the string `" true "`; the
code strips first and returns the boolean `True`. -/
theorem c8_cex_heuristics_on_trimmed :
    parse_value (PyVal.pystr " true ") Ann.anone = PyVal.pybool true ∧
    PyVal.pybool true ≠ PyVal.pystr " true " :=
  ⟨rfl, by simp⟩

/-- C8 (amended): with no declared type the heuristics run on the
whitespace-TRIMMED text `t`, in this exact order: exact case-insensitive
`"true"`/`"false"` gives a boolean; otherwise float parsing when `t` has
a decimal point or an `e`, else integer parsing; a parse failure returns
the trimmed string.  `coerce("3.14")` is the float 3.14, `coerce("7")`
the integer 7, `coerce("abc")` the string `"abc"`. -/
theorem c8_heuristic_order :
    (∀ s : String, pyStrip s ≠ "" →
      parse_value (PyVal.pystr s) Ann.anone =
        (let t := pyStrip s
         if pyLower t = "true" then PyVal.pybool true
         else if pyLower t = "false" then PyVal.pybool false
         else if hasChar t '.' || hasChar (pyLower t) 'e' then
           match pyFloatParse? t with
           | some q => PyVal.pyfloat q
           | none => PyVal.pystr t
         else
           match pyIntParse? t with
           | some n => PyVal.pyint n
           | none => PyVal.pystr t)) ∧
    parse_value (PyVal.pystr "3.14") Ann.anone = PyVal.pyfloat ⟨157, 50⟩ ∧
    parse_value (PyVal.pystr "7") Ann.anone = PyVal.pyint 7 ∧
    parse_value (PyVal.pystr "abc") Ann.anone = PyVal.pystr "abc" := by
  refine ⟨fun s h0 => ?_, rfl, rfl, rfl⟩
  show parse_value_core (pyStrip s) Ann.anone = _
  unfold parse_value_core
  rw [if_neg h0]
  rfl

/-- C8 witness: the order theorem applied at `" 7 "` (exercising the
trim), evaluating to the integer 7. -/
theorem c8_witness :
    (pyStrip " 7 " ≠ "") ∧
    parse_value (PyVal.pystr " 7 ") Ann.anone =
      (let t := pyStrip " 7 "
       if pyLower t = "true" then PyVal.pybool true
       else if pyLower t = "false" then PyVal.pybool false
       else if hasChar t '.' || hasChar (pyLower t) 'e' then
         match pyFloatParse? t with
         | some q => PyVal.pyfloat q
         | none => PyVal.pystr t
       else
         match pyIntParse? t with
         | some n => PyVal.pyint n
         | none => PyVal.pystr t) :=
  ⟨by decide, c8_heuristic_order.1 " 7 " (by decide)⟩

theorem parse_value_str (u : String) (ann : Ann) :
    parse_value (PyVal.pystr u) ann = parse_value_core (pyStrip u) ann := rfl

theorem parse_value_nonnone (v : PyVal) (ann : Ann) (hn : v ≠ PyVal.pynone) :
    parse_value v ann = parse_value_core (pyStrip (pyStr v)) ann := by
  cases v with
  | pynone => exact absurd rfl hn
  | pybool b => rfl
  | pyint n => rfl
  | pyfloat q => rfl
  | pystr s => rfl
  | pylist xs => rfl
  | pydict kvs => rfl
  | pyseries nm kvs => rfl
  | pyframe rs => rfl

/-- C10 counterexample: the claim quantifies over every raw value, but a
`None` cell short-circuits before `str()`: `coerce(None)` is `None`,
while coercing the trimmed string representation of `None` (the text
`"None"`) yields the string `"None"`. -/
theorem c10_cex_none_short_circuit :
    parse_value PyVal.pynone Ann.anone = PyVal.pynone ∧
    parse_value (PyVal.pystr (pyStrip (pyStr PyVal.pynone))) Ann.anone =
      PyVal.pystr "None" ∧
    PyVal.pynone ≠ PyVal.pystr "None" :=
  ⟨rfl, rfl, by simp⟩

/-- C10 (amended): for every NON-NULL raw scalar value `v` and every
declared type, `coerce(v, t)` equals `coerce` applied to the
whitespace-trimmed string representation of `v`; a whitespace-only string
coerces to `None` exactly like a blank one, and the float 20.0 is coerced
from its text form `"20.0"`. -/
theorem c10_coerce_via_str :
    (∀ (v : PyVal) (ann : Ann), isRawV v = true → v ≠ PyVal.pynone →
      parse_value v ann = parse_value (PyVal.pystr (pyStrip (pyStr v))) ann) ∧
    (∀ ann : Ann, parse_value (PyVal.pystr "   ") ann = PyVal.pynone ∧
      parse_value (PyVal.pystr "") ann = PyVal.pynone) ∧
    parse_value (PyVal.pyfloat ⟨20, 1⟩) Ann.anone =
      parse_value (PyVal.pystr "20.0") Ann.anone := by
  refine ⟨fun v ann hr hn => ?_, fun ann => ⟨rfl, rfl⟩, rfl⟩
  rw [parse_value_nonnone v ann hn,
    parse_value_str (pyStrip (pyStr v)) ann, pyStrip_idem]

/-- C10 witness: the equation applied at the float 20.0 with no declared
type. -/
theorem c10_witness :
    (isRawV (PyVal.pyfloat ⟨20, 1⟩) = true ∧ PyVal.pyfloat ⟨20, 1⟩ ≠ PyVal.pynone) ∧
    parse_value (PyVal.pyfloat ⟨20, 1⟩) Ann.anone =
      parse_value (PyVal.pystr (pyStrip (pyStr (PyVal.pyfloat ⟨20, 1⟩)))) Ann.anone :=
  ⟨⟨by decide, by simp⟩,
    c10_coerce_via_str.1 (PyVal.pyfloat ⟨20, 1⟩) Ann.anone (by decide) (by simp)⟩

/-- C7 (confirmed): header validation computes the set of required
parameter names minus the table's columns; when non-empty, `process_csv`
reports one error naming every missing column (sorted) and returns before
any binding or invocation — the outcome does not depend on the target
function at all, which therefore is never invoked. -/
theorem c7_header_validation (params : List Param) (tbl : InTable)
    (h : missingCols tbl.cols params ≠ []) :
    (∀ f : Kwargs → Except String PyVal,
      process_csv f params tbl = .headerError
        ("Missing required columns: " ++
          String.intercalate ", " (missingCols tbl.cols params) ++
          "\nExpected at least: " ++ String.intercalate ", " (requiredNames params))) ∧
    (∀ c : String, c ∈ missingCols tbl.cols params ↔
      (c ∈ requiredNames params ∧ c ∉ tbl.cols)) := by
  have hv : validate_headers tbl.cols params =
      some ("Missing required columns: " ++
        String.intercalate ", " (missingCols tbl.cols params)) := by
    unfold validate_headers
    cases hm : missingCols tbl.cols params with
    | nil => exact absurd hm h
    | cons m ms => rfl
  refine ⟨fun f => ?_, fun c => mem_missingCols⟩
  unfold process_csv
  rw [hv]

/-- C7 witness: a signature requiring `{a, b}` against a table with
columns `{a}`: the missing set is exactly `{b}` and the run stops at the
header error, whatever the target function does. -/
theorem c7_witness :
    (missingCols ["a"] [⟨"a", Ann.anone, none⟩, ⟨"b", Ann.anone, none⟩] ≠ []) ∧
    missingCols ["a"] [⟨"a", Ann.anone, none⟩, ⟨"b", Ann.anone, none⟩] = ["b"] ∧
    process_csv wFok [⟨"a", Ann.anone, none⟩, ⟨"b", Ann.anone, none⟩]
        ⟨["a"], [[PyVal.pyint 1]]⟩ =
      .headerError "Missing required columns: b\nExpected at least: a, b" :=
  ⟨by decide, rfl, by
    have hmain := (c7_header_validation [⟨"a", Ann.anone, none⟩, ⟨"b", Ann.anone, none⟩]
      ⟨["a"], [[PyVal.pyint 1]]⟩ (by decide)).1 wFok
    exact hmain.trans (by rfl)⟩

/-- C2 counterexample: a one-row table whose required column `a` holds a
blank (absent) cell.  The claim says the whole batch aborts with an error
naming the row and the column; instead the code binds `a = None` and
invokes the function — the result column holds 1, which the target
function returns exactly when it was called with `a = None`, and no abort
outcome is produced. -/
theorem c2_cex_blank_required_cell :
    process_csv cexF2 [⟨"a", Ann.anone, none⟩] ⟨["a"], [[PyVal.pynone]]⟩ =
      .done [] "Completed" [("result", [PyVal.pyint 1])]
        [("a", [PyVal.pynone]), ("result", [PyVal.pyint 1])] := rfl

/-- C2 (amended): a required parameter's blank cell coerces to the absent
value and is bound as such; the function is invoked and the batch
continues.  Once header validation has passed, `process_csv` never takes
the binding-abort path (the `Missing required column` abort of line 334
is unreachable: it would require a required parameter whose column is
absent, which validation has already rejected). -/
theorem c2_no_bind_abort (params : List Param) (tbl : InTable)
    (f : Kwargs → Except String PyVal) (m : String)
    (hv : validate_headers tbl.cols params = none) :
    process_csv f params tbl ≠ .bindAbort m := by
  have hargs : ∃ args, buildArgs tbl params = .ok args := by
    apply exceptMap_ok_of_forall
    intro row _
    apply exceptMap_ok_of_forall
    intro p hp
    by_cases hc : p.name ∈ tbl.cols
    · exact ⟨(p.name, parse_value (getCell tbl.cols row p.name) p.ann), by
        unfold bindParam
        rw [if_pos hc]⟩
    · cases hd : p.default with
      | some d =>
        exact ⟨(p.name, d), by
          unfold bindParam
          rw [if_neg hc, hd]⟩
      | none =>
        exfalso
        exact hc (required_mem_cols hv p hp hd)
  obtain ⟨args, hargs⟩ := hargs
  unfold process_csv
  rw [hv]
  simp only [hargs]
  cases hnr : normalize_results (resultsOf f args) with
  | error e => simp [hnr]
  | ok out => simp [hnr]

/-- C2 witness: the no-abort theorem applied to a one-row table whose
required column is present. -/
theorem c2_witness :
    (validate_headers ["a"] [⟨"a", Ann.anone, none⟩] = none) ∧
    process_csv wFok [⟨"a", Ann.anone, none⟩] ⟨["a"], [[PyVal.pyint 3]]⟩ ≠
      .bindAbort "Missing required column a" :=
  ⟨rfl, c2_no_bind_abort [⟨"a", Ann.anone, none⟩] ⟨["a"], [[PyVal.pyint 3]]⟩
    wFok "Missing required column a" rfl⟩

/-- C9 (confirmed): a sequence of scalar results normalizes to one
`result` column holding one value per row; a sequence of list/tuple
results normalizes to `result_0 … result_{L-1}` columns where `L` is the
maximum length, shorter sequences right-padded with absent values. -/
theorem c9_normalize_shapes :
    (∀ results : List PyVal, results ≠ [] → (∀ r ∈ results, isScalarV r = true) →
      normalize_results results = .ok [("result", results)]) ∧
    (∀ results : List PyVal, results ≠ [] → (∀ r ∈ results, isListV r = true) →
      normalize_results results =
        .ok ((List.range (maxSeqLen results)).map
          (fun k => (s!"result_{k}",
            results.map (fun r => (seqElems r).getD k PyVal.pynone))))) := by
  constructor
  · intro results hne hsc
    cases results with
    | nil => exact absurd rfl hne
    | cons r rs => exact norm_scalar r rs (hsc r (List.mem_cons_self r rs))
  · intro results hne hls
    cases results with
    | nil => exact absurd rfl hne
    | cons r rs =>
      have hr := hls r (List.mem_cons_self r rs)
      cases r with
      | pylist xs =>
        show Except.ok (tableFromRows _ _) = _
        exact congrArg Except.ok (norm_seq_table (PyVal.pylist xs :: rs) _)
      | pynone => simp [isListV] at hr
      | pybool b => simp [isListV] at hr
      | pyint n => simp [isListV] at hr
      | pyfloat q => simp [isListV] at hr
      | pystr s => simp [isListV] at hr
      | pydict kvs => simp [isListV] at hr
      | pyseries nm kvs => simp [isListV] at hr
      | pyframe rs2 => simp [isListV] at hr

/-- C9 witness: the two example normalizations of the claim,
`[1, 2, 3]` and `[(1, 2), (3,)]`. -/
theorem c9_witness :
    normalize_results [PyVal.pyint 1, PyVal.pyint 2, PyVal.pyint 3] =
      .ok [("result", [PyVal.pyint 1, PyVal.pyint 2, PyVal.pyint 3])] ∧
    normalize_results
        [PyVal.pylist [PyVal.pyint 1, PyVal.pyint 2], PyVal.pylist [PyVal.pyint 3]] =
      .ok [("result_0", [PyVal.pyint 1, PyVal.pyint 3]),
           ("result_1", [PyVal.pyint 2, PyVal.pynone])] :=
  ⟨c9_normalize_shapes.1 _ (by simp) (by decide),
   (c9_normalize_shapes.2 _ (by simp) (by decide)).trans (by rfl)⟩

theorem recordsToTable_cols (recs : List (List (String × PyVal))) :
    ∀ p ∈ recordsToTable recs, ∃ g : List (String × PyVal) → PyVal,
      p.2 = recs.map g ∧ g [] = PyVal.pynone := by
  intro p hp
  unfold recordsToTable at hp
  obtain ⟨c, _, rfl⟩ := List.mem_map.mp hp
  exact ⟨fun r => (r.lookup c).getD PyVal.pynone, rfl, rfl⟩

theorem normalize_cons (r : PyVal) (rs : List PyVal) :
    normalize_results (r :: rs) =
      (if isFrameV r then pconcat (r :: rs)
       else if isSeriesV r then pdFromRecords (r :: rs)
       else if isDictV r then pdFromRecords (r :: rs)
       else if isListV r then
         Except.ok (tableFromRows
           ((List.range (maxSeqLen (r :: rs))).map (fun i => s!"result_{i}"))
           ((r :: rs).map (padRow (maxSeqLen (r :: rs)))))
       else Except.ok [("result", r :: rs)]) := rfl

theorem normalize_cols_map (results : List PyVal) (out : Table)
    (hok : normalize_results results = .ok out)
    (hnf : isFrameV (results.getD 0 PyVal.pynone) = false) :
    ∀ p ∈ out, ∃ g : PyVal → PyVal,
      p.2 = results.map g ∧ g PyVal.pynone = PyVal.pynone := by
  cases results with
  | nil =>
    simp only [normalize_results, Except.ok.injEq] at hok
    subst hok
    intro p hp
    simp at hp
  | cons r rs =>
    have hr : isFrameV r = false := hnf
    rw [normalize_cons, hr] at hok
    simp only [Bool.false_eq_true, if_false] at hok
    by_cases hser : isSeriesV r = true
    case pos =>
      rw [if_pos hser] at hok
      unfold pdFromRecords at hok
      by_cases hall : (r :: rs).all isMappingV
      · rw [if_pos hall] at hok
        simp only [Except.ok.injEq] at hok
        subst hok
        intro p hp
        obtain ⟨g1, hg1, hg0⟩ := recordsToTable_cols ((r :: rs).map recOf) p hp
        exact ⟨g1 ∘ recOf, by rw [hg1, List.map_map], by
          show g1 (recOf PyVal.pynone) = PyVal.pynone
          rw [show recOf PyVal.pynone = [] from rfl, hg0]⟩
      · rw [if_neg hall] at hok
        simp at hok
    case neg =>
      rw [if_neg hser] at hok
      by_cases hdict : isDictV r = true
      · rw [if_pos hdict] at hok
        unfold pdFromRecords at hok
        by_cases hall : (r :: rs).all isMappingV
        · rw [if_pos hall] at hok
          simp only [Except.ok.injEq] at hok
          subst hok
          intro p hp
          obtain ⟨g1, hg1, hg0⟩ := recordsToTable_cols ((r :: rs).map recOf) p hp
          exact ⟨g1 ∘ recOf, by rw [hg1, List.map_map], by
            show g1 (recOf PyVal.pynone) = PyVal.pynone
            rw [show recOf PyVal.pynone = [] from rfl, hg0]⟩
        · rw [if_neg hall] at hok
          simp at hok
      · rw [if_neg hdict] at hok
        by_cases hlist : isListV r = true
        · rw [if_pos hlist] at hok
          simp only [Except.ok.injEq] at hok
          subst hok
          intro p hp
          unfold tableFromRows at hp
          obtain ⟨k, _, rfl⟩ := List.mem_map.mp hp
          refine ⟨fun v => (padRow (maxSeqLen (r :: rs)) v).getD k PyVal.pynone,
            by rw [List.map_map]; rfl, ?_⟩
          show (padRow (maxSeqLen (r :: rs)) PyVal.pynone).getD k PyVal.pynone =
            PyVal.pynone
          rw [padRow_eq, pad_getD]
          show ([PyVal.pynone].getD k PyVal.pynone) = PyVal.pynone
          cases k with
          | zero => rfl
          | succ j => simp [List.getD]
        · rw [if_neg hlist] at hok
          simp only [Except.ok.injEq] at hok
          subst hok
          intro p hp
          simp only [List.mem_singleton] at hp
          subst hp
          exact ⟨id, by simp, rfl⟩

/-- C1 counterexample: a three-row batch in the tabular scheme (the
target function returns one-row frames) whose second row raises.  The
output table has 2 rows for 3 input rows: `pd.concat` silently drops the
failed row's `None` placeholder.  In the joined table the failing row 1
shows `r = 30` — the computed result of row 2 — and row 2 shows the
padding placeholder: the claimed per-row alignment of results fails. -/
theorem c1_cex_tabular_drops_failed_row :
    process_csv cexF1 [⟨"a", Ann.anone, none⟩]
        ⟨["a"], [[PyVal.pyint 1], [PyVal.pyint 2], [PyVal.pyint 3]]⟩ =
      .done ["Row 1: boom"] "Completed with 1 errors; see console."
        [("r", [PyVal.pyint 10, PyVal.pyint 30])]
        [("a", [PyVal.pyint 1, PyVal.pyint 2, PyVal.pyint 3]),
         ("r", [PyVal.pyint 10, PyVal.pyint 30, PyVal.pynone])] ∧
    (([("r", [PyVal.pyint 10, PyVal.pyint 30])] : Table).all
      (fun c => c.2.length == 3)) = false :=
  ⟨rfl, rfl⟩

/-- C1 (amended): in batch mode, for every row index `i` whose
invocation raises, the batch always continues to every subsequent row and
completes the loop: the results list keeps one slot per input row —
holding the absent placeholder at `i` and the computed value at every
non-failing row — exactly one diagnostic names row `i`, and the collected
diagnostics and the status line are produced whether normalization then
succeeds or not.  When moreover every successful result is scalar- or
sequence-shaped (the scalar and sequence schemes), normalization succeeds
and every column of the output table has one entry per input row, with
the absent placeholder in row `i`'s entries; in the tabular scheme
`pd.concat` instead silently drops the failed row's placeholder, losing
that row. -/
theorem c1_failure_isolation (params : List Param) (tbl : InTable)
    (f : Kwargs → Except String PyVal) (i : ℕ) (e : String) (args : List Kwargs)
    (hv : validate_headers tbl.cols params = none)
    (hb : buildArgs tbl params = .ok args)
    (hi : i < args.length)
    (hf : f (args.getD i []) = .error e) :
    (resultsOf f args).length = tbl.rows.length ∧
    (resultsOf f args).getD i PyVal.pynone = PyVal.pynone ∧
    errorsOf f args =
      (failIdx f args).map (fun k => rowErrMsg k (errText (f (args.getD k [])))) ∧
    (failIdx f args).count i = 1 ∧
    (∀ j v, j < args.length → f (args.getD j []) = .ok v →
      (resultsOf f args).getD j PyVal.pynone = v) ∧
    ((∃ exn, process_csv f params tbl =
        .crashed (errorsOf f args) (statusOf (errorsOf f args)) exn) ∨
      (∃ out, process_csv f params tbl =
        .done (errorsOf f args) (statusOf (errorsOf f args)) out
          (joinTables (dfCols tbl) out))) ∧
    ((∀ kw v, f kw = .ok v → (isScalarV v || isListV v) = true) →
      ∃ out, normalize_results (resultsOf f args) = .ok out ∧
        process_csv f params tbl =
          .done (errorsOf f args) (statusOf (errorsOf f args)) out
            (joinTables (dfCols tbl) out) ∧
        ∀ p ∈ out, p.2.length = tbl.rows.length ∧
          p.2.getD i PyVal.pynone = PyVal.pynone ∧
          ∃ g : PyVal → PyVal, p.2 = (resultsOf f args).map g) := by
  have hlen2 : args.length = tbl.rows.length := exceptMap_ok_length hb
  have hreslen : (resultsOf f args).length = tbl.rows.length := by
    simp [resultsOf, hlen2]
  have hplace : (resultsOf f args).getD i PyVal.pynone = PyVal.pynone := by
    show (args.map (fun kw => resultOf (f kw))).getD i PyVal.pynone = PyVal.pynone
    rw [getD_map_lt (fun kw => resultOf (f kw)) args i hi PyVal.pynone []]
    rw [hf]
    rfl
  refine ⟨hreslen, hplace, ?_, ?_, ?_, ?_, ?_⟩
  · unfold errorsOf
    have hfn : (fun (ik : ℕ × Kwargs) =>
        (match f ik.2 with
          | .error e2 => some (rowErrMsg ik.1 e2)
          | .ok _ => none : Option String)) =
        (fun ik => if !(f ik.2).isOk then
          some (rowErrMsg ik.1 (errText (f ik.2))) else none) := by
      funext ik
      cases hfa : f ik.2 <;> rfl
    rw [hfn, filterMap_if]
    unfold failIdx
    rw [List.map_map]
    apply List.map_congr_left
    intro ik hik
    have hik2 : ik ∈ args.enum := List.mem_of_mem_filter hik
    have hget : args.get? ik.1 = some ik.2 := List.mem_enum_iff_get?.mp hik2
    have hgd : args.getD ik.1 [] = ik.2 := by
      unfold List.getD
      rw [hget]
      rfl
    simp only [Function.comp]
    rw [hgd]
  · have hmem : i ∈ failIdx f args := by
      unfold failIdx
      apply List.mem_map.mpr
      have hei : i < args.enum.length := by simpa using hi
      refine ⟨(i, args[i]), List.mem_filter.mpr ⟨?_, ?_⟩, rfl⟩
      · have henum : args.enum[i] = (i, args[i]) := List.getElem_enum args i hei
        rw [← henum]
        exact List.getElem_mem _
      · have hfe : f args[i] = .error e := by
          rw [← List.getD_eq_getElem args [] hi]
          exact hf
        show (!(f args[i]).isOk) = true
        rw [hfe]
        rfl
    have hnodup : (failIdx f args).Nodup := by
      unfold failIdx
      have h1 := (List.filter_sublist args.enum
        (p := fun ik => !(f ik.2).isOk)).map Prod.fst
      rw [List.enum_map_fst] at h1
      exact (List.nodup_range _).sublist h1
    exact List.count_eq_one_of_mem hnodup hmem
  · intro j v hj hok
    show (args.map (fun kw => resultOf (f kw))).getD j PyVal.pynone = v
    rw [getD_map_lt (fun kw => resultOf (f kw)) args j hj PyVal.pynone []]
    rw [hok]
    rfl
  · cases hnr : normalize_results (resultsOf f args) with
    | error exn =>
      left
      refine ⟨exn, ?_⟩
      unfold process_csv
      rw [hv]
      simp only [hb, hnr]
    | ok out =>
      right
      refine ⟨out, ?_⟩
      unfold process_csv
      rw [hv]
      simp only [hb, hnr]
  · intro hs
    obtain ⟨out, hnr⟩ : ∃ out, normalize_results (resultsOf f args) = .ok out := by
      cases hargs : args with
      | nil => rw [hargs] at hi; simp at hi
      | cons a as =>
        cases hfa : f a with
        | error e2 =>
          exact ⟨_, by
            show normalize_results (resultOf (f a) :: resultsOf f as) = _
            rw [hfa]
            exact norm_scalar _ _ rfl⟩
        | ok v =>
          have hsv := hs a v hfa
          rw [Bool.or_eq_true] at hsv
          rcases hsv with hscal | hlist
          · exact ⟨_, by
              show normalize_results (resultOf (f a) :: resultsOf f as) = _
              rw [hfa]
              exact norm_scalar _ _ hscal⟩
          · cases v with
            | pylist xs =>
              exact ⟨_, by
                show normalize_results (resultOf (f a) :: resultsOf f as) = _
                rw [hfa]
                exact norm_list xs _⟩
            | pynone => simp [isListV] at hlist
            | pybool b => simp [isListV] at hlist
            | pyint n => simp [isListV] at hlist
            | pyfloat q => simp [isListV] at hlist
            | pystr s => simp [isListV] at hlist
            | pydict kvs => simp [isListV] at hlist
            | pyseries nm kvs => simp [isListV] at hlist
            | pyframe rs2 => simp [isListV] at hlist
    have hfirst : isFrameV ((resultsOf f args).getD 0 PyVal.pynone) = false := by
      cases hargs : args with
      | nil => rw [hargs] at hi; simp at hi
      | cons a as =>
        show isFrameV (resultOf (f a)) = false
        cases hfa : f a with
        | error e2 => rfl
        | ok v =>
          have hsv := hs a v hfa
          show isFrameV v = false
          cases v <;> first
            | rfl
            | simp [isScalarV, isFrameV, isSeriesV, isDictV, isListV] at hsv
    refine ⟨out, hnr, ?_, ?_⟩
    · unfold process_csv
      rw [hv]
      simp only [hb, hnr]
    · intro p hp
      obtain ⟨g, hg, hg0⟩ := normalize_cols_map (resultsOf f args) out hnr hfirst p hp
      refine ⟨?_, ?_, g, hg⟩
      · rw [hg]
        simp [resultsOf, hlen2]
      · rw [hg]
        have hires : i < (resultsOf f args).length := by simpa [resultsOf] using hi
        rw [getD_map_lt g (resultsOf f args) i hires PyVal.pynone PyVal.pynone]
        rw [hplace]
        exact hg0

/-- C1 witness: a two-row scalar batch whose second row raises — the run
completes with one diagnostic naming row 1, the results keep both slots
(`9` and the placeholder), exactly one failing index equals 1, and the
output's single column keeps both entries with the placeholder at 1. -/
theorem c1_witness :
    (validate_headers ["a"] [⟨"a", Ann.anone, none⟩] = none ∧
      buildArgs ⟨["a"], [[PyVal.pyint 1], [PyVal.pyint 2]]⟩ [⟨"a", Ann.anone, none⟩] =
        .ok [[("a", PyVal.pyint 1)], [("a", PyVal.pyint 2)]] ∧
      (1 : ℕ) < ([[("a", PyVal.pyint 1)], [("a", PyVal.pyint 2)]] : List Kwargs).length ∧
      wF1 (([[("a", PyVal.pyint 1)], [("a", PyVal.pyint 2)]] : List Kwargs).getD 1 []) =
        .error "boom") ∧
    (failIdx wF1 [[("a", PyVal.pyint 1)], [("a", PyVal.pyint 2)]]).count 1 = 1 ∧
    ∃ out, normalize_results
        (resultsOf wF1 [[("a", PyVal.pyint 1)], [("a", PyVal.pyint 2)]]) = .ok out ∧
      process_csv wF1 [⟨"a", Ann.anone, none⟩]
          ⟨["a"], [[PyVal.pyint 1], [PyVal.pyint 2]]⟩ =
        .done (errorsOf wF1 [[("a", PyVal.pyint 1)], [("a", PyVal.pyint 2)]])
          (statusOf (errorsOf wF1 [[("a", PyVal.pyint 1)], [("a", PyVal.pyint 2)]]))
          out (joinTables (dfCols ⟨["a"], [[PyVal.pyint 1], [PyVal.pyint 2]]⟩) out) ∧
      ∀ p ∈ out, p.2.length = ([[PyVal.pyint 1], [PyVal.pyint 2]] :
          List (List PyVal)).length ∧
        p.2.getD 1 PyVal.pynone = PyVal.pynone ∧
        ∃ g : PyVal → PyVal,
          p.2 = (resultsOf wF1 [[("a", PyVal.pyint 1)], [("a", PyVal.pyint 2)]]).map g :=
  have hs : ∀ kw v, wF1 kw = Except.ok v → (isScalarV v || isListV v) = true :=
    fun kw v h => by
      unfold wF1 at h
      split at h
      · simp at h
      · simp only [Except.ok.injEq] at h
        rw [← h]
        rfl
  have hmain := c1_failure_isolation [⟨"a", Ann.anone, none⟩]
    ⟨["a"], [[PyVal.pyint 1], [PyVal.pyint 2]]⟩ wF1 1 "boom"
    [[("a", PyVal.pyint 1)], [("a", PyVal.pyint 2)]] rfl rfl (by decide) rfl
  ⟨⟨rfl, rfl, by decide, rfl⟩, hmain.2.2.2.1, hmain.2.2.2.2.2.2 hs⟩
